import Mathlib

/-!
Verification of the now-playing resolution and best-effort match pipeline of
`spotify_vrc.py` (VRCYoutubeMusicFinder), via a shallow embedding in Lean 4.

The embedding covers:
* `youtube_first_result_url` — the MatchResolver: scanning a raw search
  response body for `watch?v=<11 id chars>` occurrences (Python
  `re.finditer(r"watch\?v=([a-zA-Z0-9_-]{11})", text)`), first-seen
  deduplication, and canonical watch URL construction;
* `get_local_now_playing` — the NowPlayingReader: session selection
  (prefer a session whose app id contains "Spotify", else the current
  session), property extraction with stripping, and artist normalization
  (split on `;`/`/`, strip each piece, drop empties, join with ", ",
  falling back to the raw artist when the join is empty);
* `App.share_song_url` — the orchestration: empty-title short circuit,
  query construction, resolver call, clipboard write and UI signals.

HTTP, the OS media API and the clipboard are modelled as explicit inputs
and outputs of the embedded functions.
-/

namespace SpotifyVrc

/-! ## MatchResolver: `youtube_first_result_url` -/

/-- A character of the Python regex class `[a-zA-Z0-9_-]`. -/
def isIdChar (c : Char) : Bool :=
  (('a' ≤ c && c ≤ 'z') || ('A' ≤ c && c ≤ 'Z') || ('0' ≤ c && c ≤ '9')
    || c = '_' || c = '-')

/-- The fixed marker substring `watch?v=` of the regex. -/
def markerChars : List Char := "watch?v=".data

/-- Attempt the regex `watch\?v=([a-zA-Z0-9_-]{11})` anchored at the start of
`l`: the literal marker followed by exactly 11 characters of the class.  On
success returns the captured identifier and the rest of the input after the
whole match (Python `re.finditer` resumes scanning there). -/
def tryMatchAt (l : List Char) : Option (String × List Char) :=
  if l.take 8 = markerChars then
    if ((l.drop 8).take 11).length = 11 && ((l.drop 8).take 11).all isIdChar then
      some (⟨(l.drop 8).take 11⟩, (l.drop 8).drop 11)
    else none
  else none

/-- Fuel-indexed left-to-right scan: at each position try the pattern; on a
match, emit the identifier and resume after the match; otherwise advance one
character.  This is `re.finditer`'s non-overlapping leftmost semantics. -/
def scanFuel : Nat → List Char → List String
  | 0, _ => []
  | _ + 1, [] => []
  | f + 1, c :: rest =>
    match tryMatchAt (c :: rest) with
    | some (id, r2) => id :: scanFuel f r2
    | none => scanFuel f rest

/-- All matches of `watch\?v=([a-zA-Z0-9_-]{11})` in `l`, in scan order. -/
def scanIds (l : List Char) : List String := scanFuel l.length l

/-- The Python loop `if vid not in ids: ids.append(vid)` over the matches:
first-seen deduplication, implemented exactly as the source's fold. -/
def collectIds (body : String) : List String :=
  (scanIds body.data).foldl (fun acc v => if v ∈ acc then acc else acc ++ [v]) []

/-- Canonical watch URL for an identifier. -/
def watchUrl (id : String) : String := "https://www.youtube.com/watch?v=" ++ id

/-- Embedding of `youtube_first_result_url`, with the HTTP response made an
explicit input `(status, body)`.  Returns `none` on a non-200 status or when
no identifier is found, else the canonical URL of the first collected id. -/
def youtube_first_result_url (status : Nat) (body : String) : Option String :=
  if status ≠ 200 then none
  else
    match collectIds body with
    | [] => none
    | id :: _ => some (watchUrl id)

/-! ## NowPlayingReader: `get_local_now_playing` -/

/-- A separator of the Python regex class `[;/]` in `re.split(r"[;/]", artist)`. -/
def isSep (c : Char) : Bool := c = ';' || c = '/'

/-- An ASCII whitespace character as removed by Python `str.strip()`. -/
def isWs (c : Char) : Bool :=
  c = ' ' || c = '\t' || c = '\n' || c = '\r' || c = '\x0b' || c = '\x0c'

/-- `re.split(r"[;/]", ·)` on the character list: split at every single
separator character; adjacent separators yield empty pieces, and the result
is never the empty list (splitting the empty string yields `[[]]`). -/
def splitChars : List Char → List (List Char)
  | [] => [[]]
  | c :: rest =>
    if isSep c then [] :: splitChars rest
    else
      match splitChars rest with
      | [] => [[c]]
      | g :: gs => (c :: g) :: gs

/-- Python `str.strip()`: drop whitespace from both ends. -/
def stripChars (l : List Char) : List Char :=
  ((l.dropWhile isWs).reverse.dropWhile isWs).reverse

/-- `str.strip()` at the `String` level. -/
def pyStrip (s : String) : String := ⟨stripChars s.data⟩

/-- The join separator `", "`. -/
def commaSp : List Char := [',', ' ']

/-- The artist pieces that survive normalization: each split piece stripped,
empty pieces dropped (Python `[a.strip() for a in re.split(r"[;/]", artist) if a.strip()]`). -/
def artistSegs (artist : String) : List (List Char) :=
  ((splitChars artist.data).map stripChars).filter (fun g => g ≠ [])

/-- The source line
`artist = ", ".join([a.strip() for a in re.split(r"[;/]", artist) if a.strip()]) or artist`:
join the surviving pieces with `", "`; if that is empty, keep the raw string. -/
def normalizeArtist (artist : String) : String :=
  if List.intercalate commaSp (artistSegs artist) = [] then artist
  else ⟨List.intercalate commaSp (artistSegs artist)⟩

/-- One GSMTC media session as the source reads it: `appId` is
`source_app_user_model_id` (`none` models both a `None` value and the getter
raising — the source maps both to `""`); `title`/`artist` are the media
properties, `none` modelling a missing or `None` attribute. -/
structure MediaSession where
  appId : Option String
  title : Option String
  artist : Option String
deriving DecidableEq

/-- The OS-side state `get_local_now_playing` interacts with:
`winsdkAvailable` — whether `import winsdk...` succeeds; `apiError` — when
`some m`, the GSMTC API raises an exception with message `m` (the source does
not catch it); `sessions` — `mgr.get_sessions()`; `current` —
`mgr.get_current_session()` (`none` for a null session). -/
structure MediaEnv where
  winsdkAvailable : Bool
  apiError : Option String
  sessions : List MediaSession
  current : Option MediaSession

/-- The Python-level failures `get_local_now_playing` can surface:
`runtimeError` is the `RuntimeError` the source raises when `winsdk` is
missing; `osApiError` is an exception from the OS API propagating unwrapped. -/
inductive PyErr where
  | runtimeError (msg : String)
  | osApiError (msg : String)
deriving DecidableEq

instance {ε α : Type _} [DecidableEq ε] [DecidableEq α] : DecidableEq (Except ε α) :=
  fun a b =>
    match a, b with
    | .error e, .error f => decidable_of_iff (e = f) (by simp)
    | .error _, .ok _ => .isFalse fun h => Except.noConfusion h
    | .ok _, .error _ => .isFalse fun h => Except.noConfusion h
    | .ok x, .ok y => decidable_of_iff (x = y) (by simp)

/-- Python `needle in hay` on strings (substring containment). -/
def hasSubstr (hay needle : List Char) : Bool :=
  match hay with
  | [] => needle.isEmpty
  | _ :: rest => needle.isPrefixOf hay || hasSubstr rest needle

/-- The loop body test: `"Spotify" in (s.source_app_user_model_id or "")`,
with a raising getter treated as `""`. -/
def isSpotifySession (s : MediaSession) : Bool :=
  hasSubstr (s.appId.getD "").data "Spotify".data

/-- Session selection: the first session whose app id contains `"Spotify"`
(the source's `for`/`break` loop), else `mgr.get_current_session()`
(`spotify_session or mgr.get_current_session()`). -/
def select_session (sessions : List MediaSession) (current : Option MediaSession) :
    Option MediaSession :=
  (sessions.find? isSpotifySession).orElse fun _ => current

/-- The message of the `RuntimeError` raised when `winsdk` is missing. -/
def winsdkMissingMsg : String :=
  "Windows 'Now Playing' requires the 'winsdk' package. Install: pip install winsdk"

/-- Embedding of `get_local_now_playing`.  Mirrors the source: a failing
`winsdk` import raises `RuntimeError`; any exception from the GSMTC API
itself propagates unwrapped; with no session selected the result is
`(None, None)` (here `Except.ok none`); otherwise title and artist are read
with `""` defaults, stripped, and the artist is normalized. -/
def get_local_now_playing (env : MediaEnv) :
    Except PyErr (Option (String × String)) :=
  if env.winsdkAvailable then
    match env.apiError with
    | some m => .error (.osApiError m)
    | none =>
      match select_session env.sessions env.current with
      | none => .ok none
      | some s =>
        let title := pyStrip (s.title.getD "")
        let artist := pyStrip (s.artist.getD "")
        .ok (some (title, normalizeArtist artist))
  else .error (.runtimeError winsdkMissingMsg)

/-- Whether a reader outcome is the typed capability-missing failure (the
`RuntimeError` the source raises for a failing `winsdk` import). -/
def isRuntimeErrorResult (r : Except PyErr (Option (String × String))) : Bool :=
  match r with
  | .error (.runtimeError _) => true
  | _ => false

/-! ## Orchestration: `App.share_song_url` -/

/-- The two UI outcomes the shell renders: the transient overlay
(`_show_overlay`) and the blocking `messagebox.showerror` dialog. -/
inductive UiSignal where
  | transientInfo (msg : String)
  | blockingError (msg : String)
deriving DecidableEq

/-- Observable effects of one `share_song_url` invocation: the search queries
issued over HTTP (in order), the clipboard content written (`none` = clipboard
untouched), and the UI signal shown (`none` = silent). -/
structure ShareResult where
  httpQueries : List String
  clipboard : Option String
  signal : Option UiSignal
deriving DecidableEq

/-- `str(e)` for the embedded exceptions: the message. -/
def PyErr.message : PyErr → String
  | .runtimeError m => m
  | .osApiError m => m

/-- Embedding of `App.share_song_url`.  `np` is the outcome of
`get_local_now_playing()`; `http` maps a query to the `(status, body)` of
`requests.get` on the search endpoint.  A falsy `track` (`None` or `""`)
shows the transient overlay and stops; otherwise the query
`f"{track} {artist}".strip()` is resolved, a missing result shows the
blocking error, and a found URL is silently written to the clipboard.
Any exception is caught and shown as `f"Error: {e}"`. -/
def share_song_url (np : Except PyErr (Option (String × String)))
    (http : String → Nat × String) : ShareResult :=
  match np with
  | .error e => ⟨[], none, some (.blockingError ("Error: " ++ e.message))⟩
  | .ok none => ⟨[], none, some (.transientInfo "no track is playing")⟩
  | .ok (some (track, artist)) =>
    if track = "" then ⟨[], none, some (.transientInfo "no track is playing")⟩
    else
      match youtube_first_result_url (http (pyStrip (track ++ " " ++ artist))).1
          (http (pyStrip (track ++ " " ++ artist))).2 with
      | none => ⟨[pyStrip (track ++ " " ++ artist)], none,
          some (.blockingError "Couldn't find a YouTube result.")⟩
      | some url => ⟨[pyStrip (track ++ " " ++ artist)], some url, none⟩

example : scanIds "watch?v=abc12345678".data = ["abc12345678"] := by decide
example : collectIds "watch?v=abc12345678 watch?v=zzz98765432 watch?v=abc12345678" = ["abc12345678", "zzz98765432"] := by decide
example : youtube_first_result_url 200 "watch?v=ABCDEFwatch?v=abc123456789" = some "https://www.youtube.com/watch?v=ABCDEFwatch" := by decide
example : youtube_first_result_url 404 "watch?v=abc12345678" = none := by decide


example : normalizeArtist "A1; A2" = "A1, A2" := by decide
example : normalizeArtist " ; / " = " ; / " := by decide
example : normalizeArtist "AC/DC" = "AC, DC" := by decide
example : get_local_now_playing ⟨true, none, [], none⟩ = .ok none := by decide
example :
    get_local_now_playing ⟨true, none, [⟨some "Spotify.exe", some " Song ", some "A1; A2"⟩], none⟩
      = .ok (some ("Song", "A1, A2")) := by decide
example :
    share_song_url (.ok (some ("Song", "A1, A2"))) (fun _ => (200, "watch?v=XXXXXXXXXXX"))
      = ⟨["Song A1, A2"], some "https://www.youtube.com/watch?v=XXXXXXXXXXX", none⟩ := by decide

/-! ## Lemmas about the scanner -/

theorem tryMatchAt_nil : tryMatchAt [] = none := by decide

theorem tryMatchAt_eq_some {l : List Char} {id : String} {r2 : List Char}
    (h : tryMatchAt l = some (id, r2)) :
    r2 = l.drop 19 ∧ 19 ≤ l.length := by
  unfold tryMatchAt at h
  split at h
  · split at h
    · rename_i hcond
      injection h with h
      injection h with h1 h2
      have hmin : ((l.drop 8).take 11).length = 11 := by
        have := (Bool.and_eq_true _ _).mp hcond
        exact_mod_cast of_decide_eq_true this.1
      rw [List.length_take, List.length_drop] at hmin
      constructor
      · rw [← h2, List.drop_drop]
      · omega
    · exact absurd h (by simp)
  · exact absurd h (by simp)

theorem scanFuel_nil (f : Nat) : scanFuel f [] = [] := by
  cases f <;> rfl

theorem scanFuel_adequate :
    ∀ (f g : Nat) (l : List Char), l.length ≤ f → l.length ≤ g →
      scanFuel f l = scanFuel g l := by
  intro f
  induction f with
  | zero =>
    intro g l hf _
    have hl : l = [] := List.eq_nil_of_length_eq_zero (Nat.le_zero.mp hf)
    subst hl
    rw [scanFuel_nil, scanFuel_nil]
  | succ f ih =>
    intro g l hf hg
    cases l with
    | nil => rw [scanFuel_nil, scanFuel_nil]
    | cons c rest =>
      obtain ⟨g', rfl⟩ : ∃ g', g = g' + 1 := ⟨g - 1, by simp at hg; omega⟩
      simp only [List.length_cons] at hf hg
      cases h : tryMatchAt (c :: rest) with
      | some p =>
        obtain ⟨id, r2⟩ := p
        obtain ⟨hr2, hlen⟩ := tryMatchAt_eq_some h
        have hr2len : r2.length ≤ rest.length := by
          rw [hr2, List.length_drop]; simp
        simp only [scanFuel, h]
        exact congrArg _ (ih g' r2 (by omega) (by omega))
      | none =>
        simp only [scanFuel, h]
        exact ih g' rest (by omega) (by omega)

theorem scanIds_nil : scanIds [] = [] := rfl

theorem scanIds_cons (c : Char) (rest : List Char) :
    scanIds (c :: rest) =
      match tryMatchAt (c :: rest) with
      | some p => p.1 :: scanIds p.2
      | none => scanIds rest := by
  show scanFuel (c :: rest).length (c :: rest) = _
  simp only [List.length_cons, scanFuel]
  cases h : tryMatchAt (c :: rest) with
  | some p =>
    obtain ⟨id, r2⟩ := p
    obtain ⟨hr2, hlen⟩ := tryMatchAt_eq_some h
    have hr2len : r2.length ≤ rest.length := by
      rw [hr2, List.length_drop]; simp
    exact congrArg _ (scanFuel_adequate _ _ _ hr2len (le_refl _))
  | none => rfl

theorem scanIds_eq_of_tryMatch_some {l : List Char} {id : String} {r2 : List Char}
    (h : tryMatchAt l = some (id, r2)) :
    scanIds l = id :: scanIds r2 := by
  cases l with
  | nil => rw [tryMatchAt_nil] at h; exact absurd h (by simp)
  | cons c rest => rw [scanIds_cons, h]

/-- The pattern matches at the head of `markerChars ++ run ++ rest` whenever
`run` starts with at least 11 identifier characters: the captured id is the
first 11 characters of `run`, and scanning resumes right after them. -/
theorem tryMatchAt_marker {run rest : List Char}
    (hall : run.all isIdChar = true) (hlen : 11 ≤ run.length) :
    tryMatchAt (markerChars ++ (run ++ rest)) =
      some (⟨run.take 11⟩, run.drop 11 ++ rest) := by
  have hm : markerChars.length = 8 := by decide
  have htake : (markerChars ++ (run ++ rest)).take 8 = markerChars := by
    rw [← hm, List.take_left]
  have hdrop : (markerChars ++ (run ++ rest)).drop 8 = run ++ rest := by
    rw [← hm, List.drop_left]
  have htake11 : (run ++ rest).take 11 = run.take 11 := by
    rw [List.take_append_eq_append_take, Nat.sub_eq_zero_of_le hlen]
    simp
  have hdrop11 : (run ++ rest).drop 11 = run.drop 11 ++ rest := by
    rw [List.drop_append_eq_append_drop, Nat.sub_eq_zero_of_le hlen]
    simp
  have hlen11 : (run.take 11).length = 11 := by
    rw [List.length_take]; exact Nat.min_eq_left hlen
  have hall11 : (run.take 11).all isIdChar = true := by
    rw [List.all_eq_true] at hall ⊢
    exact fun x hx => hall x ((List.take_sublist 11 run).subset hx)
  unfold tryMatchAt
  rw [htake, if_pos rfl, hdrop, htake11, hdrop11]
  rw [if_pos (by rw [hlen11, hall11]; rfl)]


/-! ## First-seen deduplication -/

/-- Specification-level deduplication keeping the first occurrence of each
value: keep the head, then dedup the tail with the head's duplicates removed. -/
def firstSeenDedup : List String → List String
  | [] => []
  | x :: xs => x :: firstSeenDedup (xs.filter (fun y => y ≠ x))
termination_by l => l.length
decreasing_by
  simp only [List.length_cons]
  exact Nat.lt_succ_of_le (List.length_filter_le _ _)

theorem firstSeenDedup_nil : firstSeenDedup [] = [] := by
  rw [firstSeenDedup]

theorem firstSeenDedup_cons (x : String) (xs : List String) :
    firstSeenDedup (x :: xs) = x :: firstSeenDedup (xs.filter (fun y => y ≠ x)) := by
  rw [firstSeenDedup]

/-- The source's fold (`if vid not in ids: ids.append(vid)`) over any
accumulator, against the specification-level dedup of the not-yet-seen part. -/
theorem foldl_dedup_eq (l : List String) :
    ∀ acc : List String,
      l.foldl (fun acc v => if v ∈ acc then acc else acc ++ [v]) acc
        = acc ++ firstSeenDedup (l.filter (fun v => decide (v ∉ acc))) := by
  induction l with
  | nil => intro acc; simp [firstSeenDedup_nil]
  | cons v l ih =>
    intro acc
    by_cases hv : v ∈ acc
    · have hfv : (v :: l).filter (fun v => decide (v ∉ acc))
          = l.filter (fun v => decide (v ∉ acc)) := by
        simp [List.filter_cons, hv]
      rw [hfv, List.foldl_cons, if_pos hv]
      exact ih acc
    · have hfv : (v :: l).filter (fun v => decide (v ∉ acc))
          = v :: l.filter (fun v => decide (v ∉ acc)) := by
        simp [List.filter_cons, hv]
      rw [hfv, List.foldl_cons, if_neg hv, firstSeenDedup_cons, ih (acc ++ [v])]
      rw [List.filter_filter]
      have hpred : l.filter (fun a => decide (a ∉ acc ++ [v]))
          = l.filter (fun a => (decide (a ≠ v) && decide (a ∉ acc))) := by
        apply List.filter_congr
        intro x _
        by_cases h1 : x = v <;> by_cases h2 : x ∈ acc <;> simp [h1, h2]
      rw [hpred, List.append_assoc]
      rfl

/-- `collectIds` is exactly first-seen deduplication of the scanned matches. -/
theorem collectIds_eq (body : String) :
    collectIds body = firstSeenDedup (scanIds body.data) := by
  unfold collectIds
  rw [foldl_dedup_eq]
  have : (scanIds body.data).filter (fun v => decide (v ∉ ([] : List String)))
      = scanIds body.data := by
    apply List.filter_eq_self.mpr
    intro x _
    simp
  rw [this, List.nil_append]

/-- Deduplication never changes the first element. -/
theorem firstSeenDedup_head (l : List String) :
    (firstSeenDedup l).head? = l.head? := by
  cases l with
  | nil => rw [firstSeenDedup_nil]
  | cons x xs => rw [firstSeenDedup_cons]; rfl


/-! ## Claim theorems: MatchResolver -/

/-- C1: for every search response body (with a 200 status), the resolver
returns the canonical watch URL of the head of the first-seen deduplication of
the matches in scan order (first appearance wins, duplicates collapsed); in
particular, on a body containing `watch?v=abc12345678` twice and
`watch?v=zzz98765432` once it returns
`https://www.youtube.com/watch?v=abc12345678`. -/
theorem C1_first_seen_dedup :
    (∀ body : String,
      youtube_first_result_url 200 body
        = (firstSeenDedup (scanIds body.data)).head?.map watchUrl)
    ∧ youtube_first_result_url 200
        "watch?v=abc12345678 watch?v=zzz98765432 watch?v=abc12345678"
        = some "https://www.youtube.com/watch?v=abc12345678" := by
  constructor
  · intro body
    unfold youtube_first_result_url
    rw [if_neg (by simp), collectIds_eq]
    cases h : firstSeenDedup (scanIds body.data) with
    | nil => rfl
    | cons x xs => rfl
  · decide

/-- C2: the resolver returns `none` (NotFound) exactly when the status is not
200 or the body has no `watch?v=` identifier match; and for every status and
body it returns either `none` or the canonical watch URL of a matched
identifier (the embedding is a total function — nothing raises). -/
theorem C2_notfound_iff (status : Nat) (body : String) :
    (youtube_first_result_url status body = none
      ↔ (status ≠ 200 ∨ scanIds body.data = []))
    ∧ (youtube_first_result_url status body = none
      ∨ ∃ id, id ∈ scanIds body.data
          ∧ youtube_first_result_url status body = some (watchUrl id)) := by
  by_cases hs : status = 200
  · subst hs
    unfold youtube_first_result_url
    rw [if_neg (by simp), collectIds_eq]
    cases h : scanIds body.data with
    | nil =>
      rw [firstSeenDedup_nil]
      exact ⟨by simp, Or.inl rfl⟩
    | cons x xs =>
      rw [firstSeenDedup_cons]
      refine ⟨by simp, Or.inr ⟨x, ?_, rfl⟩⟩
      exact List.mem_cons_self x xs
  · unfold youtube_first_result_url
    rw [if_pos hs]
    exact ⟨by simp [hs], Or.inl rfl⟩

/-- C9 counterexample: the body `watch?v=ABCDEFwatch?v=abc123456789` contains
the marker followed by the 12-character identifier run `abc123456789`, yet the
resolver does not extract its first 11 characters `abc12345678` at all: the
earlier overlapping match `ABCDEFwatch` consumes through the second marker, so
the occurrence is skipped, not truncated. -/
theorem C9_counterexample :
    ("watch?v=ABCDEFwatch?v=abc123456789" : String).data
        = "watch?v=ABCDEF".data ++ (markerChars ++ "abc123456789".data)
    ∧ "abc123456789".data.all isIdChar = true
    ∧ 11 < "abc123456789".data.length
    ∧ ("abc12345678" : String) = ⟨"abc123456789".data.take 11⟩
    ∧ youtube_first_result_url 200 "watch?v=ABCDEFwatch?v=abc123456789"
        = some "https://www.youtube.com/watch?v=ABCDEFwatch"
    ∧ ¬ ("abc12345678" ∈ collectIds "watch?v=ABCDEFwatch?v=abc123456789") := by
  decide

/-- C9 amended: when the scanner reaches the marker (here: the marker heads
the remaining input) and a run of more than 11 identifier characters follows,
the occurrence is not rejected — the first 11 characters of the run are
extracted and scanning resumes after them. -/
theorem C9_truncates_at_match (run rest : List Char)
    (hall : run.all isIdChar = true) (hlen : 11 < run.length) :
    scanIds (markerChars ++ (run ++ rest))
      = (⟨run.take 11⟩ : String) :: scanIds (run.drop 11 ++ rest) :=
  scanIds_eq_of_tryMatch_some (tryMatchAt_marker hall (le_of_lt hlen))

theorem C9_truncates_at_match_witness :
    ("abcdefghijkl".data.all isIdChar = true ∧ 11 < "abcdefghijkl".data.length)
    ∧ scanIds (markerChars ++ ("abcdefghijkl".data ++ []))
        = (⟨"abcdefghijkl".data.take 11⟩ : String)
            :: scanIds ("abcdefghijkl".data.drop 11 ++ []) :=
  ⟨⟨by decide, by decide⟩,
    C9_truncates_at_match "abcdefghijkl".data [] (by decide) (by decide)⟩


/-! ## Lemmas about stripping and splitting -/

theorem head_dropWhile_false {α : Type _} (p : α → Bool) (l : List α) {a : α}
    (ha : (l.dropWhile p).head? = some a) : p a = false := by
  have h := List.head?_dropWhile_not p l
  rw [ha] at h
  exact h

theorem dropWhile_eq_self_of_head {α : Type _} (p : α → Bool) (l : List α)
    (h : ∀ a, l.head? = some a → p a = false) : l.dropWhile p = l := by
  cases l with
  | nil => rfl
  | cons c cs =>
    rw [List.dropWhile_cons, if_neg]
    rw [h c rfl]
    simp

theorem getLast?_of_suffix {α : Type _} {l₁ l₂ : List α} (h : l₂ <:+ l₁)
    (hne : l₂ ≠ []) : l₂.getLast? = l₁.getLast? := by
  obtain ⟨s, rfl⟩ := h
  rw [List.getLast?_append, Option.or_of_isSome (List.getLast?_isSome.mpr hne)]

/-- A nonempty strip result starts with a non-whitespace character. -/
theorem stripChars_head {l : List Char} {a : Char}
    (ha : (stripChars l).head? = some a) : isWs a = false := by
  unfold stripChars at ha
  rw [List.head?_reverse] at ha
  by_cases hd : (l.dropWhile isWs).reverse.dropWhile isWs = []
  · rw [hd] at ha; exact absurd ha (by simp)
  · rw [getLast?_of_suffix (List.dropWhile_suffix isWs) hd,
      List.getLast?_reverse] at ha
    exact head_dropWhile_false isWs l ha

/-- A nonempty strip result ends with a non-whitespace character. -/
theorem stripChars_last {l : List Char} {a : Char}
    (ha : (stripChars l).getLast? = some a) : isWs a = false := by
  unfold stripChars at ha
  rw [List.getLast?_reverse] at ha
  exact head_dropWhile_false isWs _ ha

/-- Stripping a string that has no surrounding whitespace is the identity. -/
theorem stripChars_eq_self {l : List Char}
    (hh : ∀ a, l.head? = some a → isWs a = false)
    (hl : ∀ a, l.getLast? = some a → isWs a = false) :
    stripChars l = l := by
  unfold stripChars
  rw [dropWhile_eq_self_of_head isWs l hh]
  rw [dropWhile_eq_self_of_head isWs l.reverse
    (fun a ha => hl a (by rw [← List.head?_reverse]; exact ha))]
  exact List.reverse_reverse l

theorem stripChars_idem (l : List Char) :
    stripChars (stripChars l) = stripChars l :=
  stripChars_eq_self (fun _ ha => stripChars_head ha)
    (fun _ ha => stripChars_last ha)

theorem stripChars_subset {l : List Char} : ∀ a ∈ stripChars l, a ∈ l := by
  intro a ha
  unfold stripChars at ha
  rw [List.mem_reverse] at ha
  have h1 := (List.dropWhile_suffix (l := (l.dropWhile isWs).reverse) isWs).subset ha
  rw [List.mem_reverse] at h1
  exact (List.dropWhile_suffix isWs).subset h1

theorem splitChars_ne_nil (l : List Char) : splitChars l ≠ [] := by
  cases l with
  | nil => simp [splitChars]
  | cons c rest =>
    unfold splitChars
    by_cases h : isSep c
    · simp [h]
    · rw [if_neg h]
      cases hs : splitChars rest <;> simp

/-- Every piece produced by the splitter is free of separator characters. -/
theorem splitChars_no_sep :
    ∀ (l : List Char), ∀ g ∈ splitChars l, ∀ c ∈ g, isSep c = false := by
  intro l
  induction l with
  | nil =>
    intro g hg c hc
    simp only [splitChars, List.mem_singleton] at hg
    subst hg
    exact absurd hc (List.not_mem_nil c)
  | cons x rest ih =>
    intro g hg c hc
    unfold splitChars at hg
    by_cases hx : isSep x
    · rw [if_pos hx] at hg
      rcases List.mem_cons.mp hg with h | h
      · subst h; exact absurd hc (List.not_mem_nil c)
      · exact ih g h c hc
    · rw [if_neg hx] at hg
      cases hs : splitChars rest with
      | nil => exact absurd hs (splitChars_ne_nil rest)
      | cons g0 gs =>
        rw [hs] at hg
        rcases List.mem_cons.mp hg with h | h
        · subst h
          rcases List.mem_cons.mp hc with h2 | h2
          · subst h2; exact Bool.eq_false_iff.mpr hx
          · exact ih g0 (hs ▸ List.mem_cons_self g0 gs) c h2
        · exact ih g (hs ▸ List.mem_cons.mpr (Or.inr h)) c hc

/-- Splitting a string with no separator characters yields the single piece. -/
theorem splitChars_eq_self {l : List Char}
    (h : ∀ c ∈ l, isSep c = false) : splitChars l = [l] := by
  induction l with
  | nil => rfl
  | cons x rest ih =>
    unfold splitChars
    rw [if_neg (by rw [h x (List.mem_cons_self x rest)]; simp)]
    rw [ih (fun c hc => h c (List.mem_cons.mpr (Or.inr hc)))]


/-! ## Lemmas about the `", "` join -/

theorem intercalate_one (sep g : List Char) : List.intercalate sep [g] = g := by
  simp [List.intercalate]

theorem intercalate_two (sep g g' : List Char) (gs : List (List Char)) :
    List.intercalate sep (g :: g' :: gs)
      = g ++ (sep ++ List.intercalate sep (g' :: gs)) := by
  simp [List.intercalate, List.intersperse_cons_cons]

theorem mem_intersperse_chars {sep : List Char} :
    ∀ {L : List (List Char)} {g : List Char},
      g ∈ List.intersperse sep L → g = sep ∨ g ∈ L := by
  intro L
  induction L with
  | nil => intro g h; rw [List.intersperse_nil] at h; exact absurd h (List.not_mem_nil g)
  | cons a L ih =>
    intro g h
    cases L with
    | nil =>
      rw [List.intersperse_singleton] at h
      exact Or.inr h
    | cons b L' =>
      rw [List.intersperse_cons_cons] at h
      rcases List.mem_cons.mp h with h1 | h1
      · exact Or.inr (List.mem_cons.mpr (Or.inl h1))
      · rcases List.mem_cons.mp h1 with h2 | h2
        · exact Or.inl h2
        · rcases ih h2 with h3 | h3
          · exact Or.inl h3
          · exact Or.inr (List.mem_cons.mpr (Or.inr h3))

theorem mem_intercalate_chars {sep : List Char} {segs : List (List Char)} {c : Char}
    (h : c ∈ List.intercalate sep segs) : c ∈ sep ∨ ∃ g ∈ segs, c ∈ g := by
  rw [List.intercalate.eq_def] at h
  obtain ⟨L, hL, hcL⟩ := List.mem_flatten.mp h
  rcases mem_intersperse_chars hL with h1 | h1
  · exact Or.inl (h1 ▸ hcL)
  · exact Or.inr ⟨L, h1, hcL⟩

theorem intercalate_head {sep g : List Char} {gs : List (List Char)} (hg : g ≠ []) :
    (List.intercalate sep (g :: gs)).head? = g.head? := by
  cases gs with
  | nil => rw [intercalate_one]
  | cons g' gs' =>
    rw [intercalate_two, List.head?_append,
      Option.or_of_isSome (List.head?_isSome.mpr hg)]

theorem intercalate_ne_nil {sep g : List Char} {gs : List (List Char)} (hg : g ≠ []) :
    List.intercalate sep (g :: gs) ≠ [] := by
  intro h
  have hh := @intercalate_head sep g gs hg
  rw [h] at hh
  exact hg (List.head?_eq_none_iff.mp hh.symm)

theorem intercalate_getLast {sep : List Char} :
    ∀ (gs : List (List Char)) (g : List Char), g ≠ [] → (∀ x ∈ gs, x ≠ []) →
      ∃ e ∈ g :: gs, (List.intercalate sep (g :: gs)).getLast? = e.getLast? := by
  intro gs
  induction gs with
  | nil =>
    intro g hg _
    exact ⟨g, List.mem_cons_self g [], by rw [intercalate_one]⟩
  | cons g' gs' ih =>
    intro g hg hext
    have hg' : g' ≠ [] := hext g' (List.mem_cons_self g' gs')
    obtain ⟨e, he, heq⟩ := ih g' hg' (fun x hx => hext x (List.mem_cons.mpr (Or.inr hx)))
    refine ⟨e, List.mem_cons.mpr (Or.inr he), ?_⟩
    have hXne : List.intercalate sep (g' :: gs') ≠ [] := intercalate_ne_nil hg'
    rw [intercalate_two, List.getLast?_append, List.getLast?_append,
      Option.or_of_isSome (List.getLast?_isSome.mpr hXne),
      Option.or_of_isSome (List.getLast?_isSome.mpr hXne), heq]

/-- Every surviving artist piece is nonempty, already stripped, and free of
separator characters. -/
theorem artistSegs_spec (a : String) :
    ∀ g ∈ artistSegs a, g ≠ [] ∧ stripChars g = g ∧ (∀ c ∈ g, isSep c = false) := by
  intro g hg
  unfold artistSegs at hg
  rw [List.mem_filter] at hg
  obtain ⟨hmem, hne⟩ := hg
  rw [List.mem_map] at hmem
  obtain ⟨g0, hg0, rfl⟩ := hmem
  refine ⟨by simpa using hne, stripChars_idem g0, ?_⟩
  intro c hc
  exact splitChars_no_sep a.data g0 hg0 c (stripChars_subset c hc)

/-- Normalization is the identity on a nonempty string with no separator
characters and no surrounding whitespace. -/
theorem normalizeArtist_of_plain (s : String) (hne : s.data ≠ [])
    (hsep : ∀ c ∈ s.data, isSep c = false)
    (hh : ∀ a, s.data.head? = some a → isWs a = false)
    (hl : ∀ a, s.data.getLast? = some a → isWs a = false) :
    normalizeArtist s = s := by
  have hsegs : artistSegs s = [s.data] := by
    unfold artistSegs
    rw [splitChars_eq_self hsep]
    simp [stripChars_eq_self hh hl, hne]
  unfold normalizeArtist
  rw [hsegs, intercalate_one, if_neg hne]

theorem normalizeArtist_of_nil (s : String) (hnil : s.data = []) :
    normalizeArtist s = s := by
  unfold normalizeArtist artistSegs
  rw [hnil, if_pos (by decide)]


/-! ## Claim theorems: artist normalization -/

/-- C3: artist normalization splits the string on `;`/`/`, strips every
segment, drops empty segments and rejoins the rest with `", "`; when that
yields the empty string the raw artist is kept; and a string with no
separators and no surrounding whitespace is returned unchanged. -/
theorem C3_artist_normalization (artist : String) :
    (List.intercalate commaSp (artistSegs artist) = [] →
        normalizeArtist artist = artist)
    ∧ (List.intercalate commaSp (artistSegs artist) ≠ [] →
        (normalizeArtist artist).data = List.intercalate commaSp (artistSegs artist)
        ∧ ∀ g ∈ artistSegs artist,
            g ≠ [] ∧ stripChars g = g ∧ ∀ c ∈ g, isSep c = false)
    ∧ (artist.data.all (fun c => !isSep c) = true
        → artist.data.head?.all (fun c => !isWs c) = true
        → artist.data.getLast?.all (fun c => !isWs c) = true
        → normalizeArtist artist = artist) := by
  refine ⟨?_, ?_, ?_⟩
  · intro h
    unfold normalizeArtist
    rw [if_pos h]
  · intro h
    refine ⟨?_, artistSegs_spec artist⟩
    unfold normalizeArtist
    rw [if_neg h]
  · intro hsep hh hl
    by_cases hnil : artist.data = []
    · exact normalizeArtist_of_nil artist hnil
    · refine normalizeArtist_of_plain artist hnil ?_ ?_ ?_
      · intro c hc
        have := List.all_eq_true.mp hsep c hc
        simpa using this
      · intro c hc
        rw [hc] at hh
        simpa using hh
      · intro c hc
        rw [hc] at hl
        simpa using hl

theorem C3_artist_normalization_witness :
    normalizeArtist " ; / " = " ; / "
    ∧ (normalizeArtist "A1; A2").data = List.intercalate commaSp (artistSegs "A1; A2")
    ∧ normalizeArtist "AC-DC" = "AC-DC" :=
  ⟨(C3_artist_normalization " ; / ").1 (by decide),
    ((C3_artist_normalization "A1; A2").2.1 (by decide)).1,
    (C3_artist_normalization "AC-DC").2.2 (by decide) (by decide) (by decide)⟩

/-- C10: artist normalization is idempotent. -/
theorem C10_normalizeArtist_idem (a : String) :
    normalizeArtist (normalizeArtist a) = normalizeArtist a := by
  by_cases h : List.intercalate commaSp (artistSegs a) = []
  · have h1 : normalizeArtist a = a := by
      unfold normalizeArtist; rw [if_pos h]
    rw [h1]
    exact h1
  · have h1 : normalizeArtist a = ⟨List.intercalate commaSp (artistSegs a)⟩ := by
      unfold normalizeArtist; rw [if_neg h]
    rw [h1]
    cases hsegs : artistSegs a with
    | nil =>
      rw [hsegs] at h
      exact absurd (by simp [List.intercalate]) h
    | cons g gs =>
      rw [hsegs] at h
      have hspec := artistSegs_spec a
      rw [hsegs] at hspec
      have hgne : g ≠ [] := (hspec g (List.mem_cons_self g gs)).1
      refine normalizeArtist_of_plain _ h ?_ ?_ ?_
      · intro c hc
        rcases mem_intercalate_chars hc with hcs | ⟨g', hg', hcg'⟩
        · rcases List.mem_cons.mp hcs with h2 | h2
          · rw [h2]; decide
          · rcases List.mem_cons.mp h2 with h3 | h3
            · rw [h3]; decide
            · exact absurd h3 (List.not_mem_nil c)
        · exact (hspec g' hg').2.2 c hcg'
      · intro x hx
        have hx2 : (List.intercalate commaSp (g :: gs)).head? = some x := hx
        rw [intercalate_head hgne] at hx2
        have hgstrip : stripChars g = g := (hspec g (List.mem_cons_self g gs)).2.1
        exact stripChars_head (l := g) (by rw [hgstrip]; exact hx2)
      · intro x hx
        obtain ⟨e, he, heq⟩ := @intercalate_getLast commaSp gs g hgne
          (fun y hy => (hspec y (List.mem_cons.mpr (Or.inr hy))).1)
        have hx2 : (List.intercalate commaSp (g :: gs)).getLast? = some x := hx
        rw [heq] at hx2
        have hestrip : stripChars e = e := (hspec e he).2.1
        exact stripChars_last (l := e) (by rw [hestrip]; exact hx2)


/-! ## Claim theorems: reader and orchestration -/

/-- C4: when the reader yields an empty title — and likewise when it yields
no playback pair at all — the Share action shows the transient
"no track is playing" overlay, issues no HTTP request, and leaves the
clipboard untouched. -/
theorem C4_empty_title_transient (artist : String) (http : String → Nat × String) :
    share_song_url (.ok (some ("", artist))) http
        = ⟨[], none, some (.transientInfo "no track is playing")⟩
    ∧ share_song_url (.ok none) http
        = ⟨[], none, some (.transientInfo "no track is playing")⟩ :=
  ⟨rfl, rfl⟩

/-- C5: with a non-empty title, the Share action queries exactly the
whitespace-stripped `"{title} {artist}"`, and when the resolver finds a URL
it writes exactly that URL to the clipboard and shows no indicator. -/
theorem C5_share_success (track artist : String) (http : String → Nat × String)
    (url : String) (htrack : track ≠ "")
    (hres : youtube_first_result_url (http (pyStrip (track ++ " " ++ artist))).1
        (http (pyStrip (track ++ " " ++ artist))).2 = some url) :
    share_song_url (.ok (some (track, artist))) http
      = ⟨[pyStrip (track ++ " " ++ artist)], some url, none⟩ := by
  simp only [share_song_url]
  rw [if_neg htrack, hres]

theorem C5_share_success_witness :
    get_local_now_playing
        ⟨true, none, [⟨some "Spotify.exe", some "Song", some "A1; A2"⟩], none⟩
        = .ok (some ("Song", "A1, A2"))
    ∧ ("Song" : String) ≠ ""
    ∧ pyStrip ("Song" ++ " " ++ "A1, A2") = "Song A1, A2"
    ∧ share_song_url (.ok (some ("Song", "A1, A2")))
        (fun _ => (200, "watch?v=XXXXXXXXXXX"))
        = ⟨[pyStrip ("Song" ++ " " ++ "A1, A2")],
            some "https://www.youtube.com/watch?v=XXXXXXXXXXX", none⟩ :=
  ⟨by decide, by decide, by decide,
    C5_share_success "Song" "A1, A2" (fun _ => (200, "watch?v=XXXXXXXXXXX"))
      "https://www.youtube.com/watch?v=XXXXXXXXXXX" (by decide) (by decide)⟩

/-- C6 counterexample: with `winsdk` importable but the OS API raising, the
reader surfaces the API's own exception unwrapped — not the single typed
failure used for the missing capability (which the third conjunct shows is
what the missing-capability case produces). -/
theorem C6_counterexample :
    get_local_now_playing ⟨true, some "OSError: device not ready", [], none⟩
        = .error (.osApiError "OSError: device not ready")
    ∧ isRuntimeErrorResult
        (get_local_now_playing ⟨true, some "OSError: device not ready", [], none⟩)
        = false
    ∧ isRuntimeErrorResult (get_local_now_playing ⟨false, none, [], none⟩)
        = true := by
  decide

/-- C6 amended: the missing capability is surfaced as the typed
`RuntimeError` (`MediaBackendUnavailable`), while an exception raised by the
OS API itself propagates unwrapped with its own identity. -/
theorem C6_error_split (env : MediaEnv) :
    (env.winsdkAvailable = false →
        get_local_now_playing env = .error (.runtimeError winsdkMissingMsg))
    ∧ (∀ m, env.winsdkAvailable = true → env.apiError = some m →
        get_local_now_playing env = .error (.osApiError m)) := by
  constructor
  · intro h
    simp [get_local_now_playing, h]
  · intro m h1 h2
    simp [get_local_now_playing, h1, h2]

theorem C6_error_split_witness :
    get_local_now_playing ⟨false, none, [], none⟩
        = .error (.runtimeError winsdkMissingMsg)
    ∧ get_local_now_playing ⟨true, some "boom", [], none⟩
        = .error (.osApiError "boom") :=
  ⟨(C6_error_split ⟨false, none, [], none⟩).1 rfl,
    (C6_error_split ⟨true, some "boom", [], none⟩).2 "boom" rfl rfl⟩

/-- C7 counterexample: with no Spotify session and no current session, the
reader returns `(None, None)` — `Except.ok none` — not a playback pair of two
empty strings. -/
theorem C7_counterexample :
    get_local_now_playing ⟨true, none, [], none⟩ = .ok none
    ∧ get_local_now_playing ⟨true, none, [], none⟩ ≠ .ok (some ("", "")) := by
  decide

/-- C7 amended: whenever no session resolves (no session's app id contains
"Spotify" and the OS reports no current session), the reader returns the
sentinel `(None, None)` (`Except.ok none`); the caller's falsiness check
treats it exactly like an empty title: transient overlay, no HTTP call,
clipboard untouched. -/
theorem C7_no_session_sentinel (env : MediaEnv) (http : String → Nat × String)
    (hw : env.winsdkAvailable = true) (ha : env.apiError = none)
    (hs : ∀ s ∈ env.sessions, isSpotifySession s = false)
    (hc : env.current = none) :
    get_local_now_playing env = .ok none
    ∧ share_song_url (get_local_now_playing env) http
        = ⟨[], none, some (.transientInfo "no track is playing")⟩ := by
  have hfind : env.sessions.find? isSpotifySession = none := by
    rw [List.find?_eq_none]
    intro s hsmem
    rw [hs s hsmem]
    simp
  have hsel : select_session env.sessions env.current = none := by
    unfold select_session
    rw [hfind, hc]
    rfl
  have hget : get_local_now_playing env = .ok none := by
    simp [get_local_now_playing, hw, ha, hsel]
  exact ⟨hget, by rw [hget]; rfl⟩

theorem C7_no_session_sentinel_witness :
    get_local_now_playing ⟨true, none, [⟨some "Chrome", none, none⟩], none⟩
        = .ok none
    ∧ share_song_url
        (get_local_now_playing ⟨true, none, [⟨some "Chrome", none, none⟩], none⟩)
        (fun _ => (200, ""))
        = ⟨[], none, some (.transientInfo "no track is playing")⟩ :=
  C7_no_session_sentinel ⟨true, none, [⟨some "Chrome", none, none⟩], none⟩
    (fun _ => (200, "")) rfl rfl (by decide) rfl

theorem find?_eq_head_filter {α : Type _} (p : α → Bool) :
    ∀ l : List α, l.find? p = (l.filter p).head? := by
  intro l
  induction l with
  | nil => rfl
  | cons a as ih =>
    by_cases hpa : p a = true
    · rw [List.find?_cons_of_pos as hpa, List.filter_cons_of_pos hpa]
      rfl
    · rw [List.find?_cons_of_neg as hpa, List.filter_cons_of_neg hpa]
      exact ih

/-- C8: session selection returns the first session whose app id contains
"Spotify" when one exists, else the OS-reported current session (which may
itself be absent). -/
theorem C8_session_priority (sessions : List MediaSession)
    (current : Option MediaSession) :
    select_session sessions current
      = match (sessions.filter isSpotifySession).head? with
        | some s => some s
        | none => current := by
  unfold select_session
  rw [find?_eq_head_filter]
  cases (sessions.filter isSpotifySession).head? <;> rfl


end SpotifyVrc
